import Mathlib

/-!
Verification development for the in-mem key/value server.

The definitions below are a shallow embedding of the Rust sources:
  - `src/src/store.rs` (the typed store and its string/hash/list/user/ACL APIs),
  - `src/common/src/acl.rs` (the ACL table),
  - `src/common/src/connection.rs` (the framing codec: compress + optional
    age encryption),
  - `src/src/commands/connection.rs` (the LOGIN handler's three phases),
  - `src/src/main.rs` (the worker loop's ACL check).

Rust `HashMap<String, _>` values are embedded as association lists with
insert-replaces semantics; `try_reserve` outcomes depend on the global
allocator, so every reservation attempt is an explicit boolean parameter
(`true` = the reservation succeeds).  Fallible paths that panic in Rust
(out-of-range indexing, `unwrap` on `None`, `unreachable!`) are embedded
with `Option`/dedicated constructors, `none` marking the panic.
-/

namespace InMem

/-! Association-list operations standing in for `std::collections::HashMap`.
`insert` replaces an existing binding in place and appends a new one. -/

def KV.get {α : Type} (l : List (String × α)) (k : String) : Option α :=
  match l with
  | [] => none
  | (k2, v) :: rest => if k2 = k then some v else KV.get rest k

def KV.insert {α : Type} (l : List (String × α)) (k : String) (v : α) : List (String × α) :=
  match l with
  | [] => [(k, v)]
  | (k2, v2) :: rest => if k2 = k then (k, v) :: rest else (k2, v2) :: KV.insert rest k v

/-- `HashMap::remove`: the removed value (if any) together with the remaining map. -/
def KV.removeGet {α : Type} (l : List (String × α)) (k : String) :
    Option α × List (String × α) :=
  match l with
  | [] => (none, [])
  | (k2, v) :: rest =>
      if k2 = k then (some v, rest)
      else
        let r := KV.removeGet rest k
        (r.1, (k2, v) :: r.2)

def KV.contains {α : Type} (l : List (String × α)) (k : String) : Bool :=
  (KV.get l k).isSome

/-- The tagged value variants of the store (`enum Type` in `src/src/store.rs`).
Recipients (age X25519 public keys) are embedded as `Nat`. -/
inductive Ty : Type
  | str (s : String)
  | hashMap (m : List (String × String))
  | list (l : List String)
  | user (password : String) (publicKey : Option Nat)
deriving DecidableEq, Repr

/-- `struct Store` from `src/src/store.rs`: an ACL table (user name to set of
command ids) and the single value namespace. -/
structure Store where
  acl : List (String × List Nat)
  values : List (String × Ty)
deriving DecidableEq, Repr

/-! Command ids, from `Command::to_id` in `src/common/src/command.rs`:
GET=0, SET=1, DELETE=2, HEARTBEAT=3, ACL=4, LOGIN=5, HGET=6, HSET=7, HDEL=8,
HGETALL=9, HKEYS=10, HVALS=11, HLEN=12, HEXISTS=13, HINCRBY=14, HSTRLEN=15,
KEYEXCHANGE=16. -/

def CommandId.heartbeat : Nat := 3
def CommandId.login : Nat := 5
def CommandId.set : Nat := 1
def CommandId.keyexchange : Nat := 16

/-- `ACL::is_allowed` from `src/common/src/acl.rs`: short-circuit true for
KEYEXCHANGE, LOGIN and HEARTBEAT, otherwise membership in the user's set. -/
def Store.acl_is_allowed (s : Store) (user : String) (command : Nat) : Bool :=
  if command = CommandId.keyexchange ∨ command = CommandId.login ∨
      command = CommandId.heartbeat then
    true
  else
    match KV.get s.acl user with
    | some set => set.contains command
    | none => false

/-! String sub-API (`impl StoreAble for Store`). -/

def Store.get (s : Store) (key : String) : Option String :=
  match KV.get s.values key with
  | some (Ty.str v) => some v
  | _ => none

/-- `Store::set`: reserve one slot (outcome `r1`); on failure shrink-to-fit and
retry (outcome `r2`); on success insert the String variant.  Returns
`(ok, new store)`. -/
def Store.set (s : Store) (r1 r2 : Bool) (key value : String) : Bool × Store :=
  if r1 then
    (true, { s with values := KV.insert s.values key (Ty.str value) })
  else if r2 then
    (true, { s with values := KV.insert s.values key (Ty.str value) })
  else
    (false, s)

/-! User sub-API (`impl UserAble for Store`). -/

def Store.user_is_valid (s : Store) (user password : String) : Bool :=
  match KV.get s.values user with
  | some (Ty.user p _) => p = password
  | _ => false

def Store.user_has_key (s : Store) (user : String) : Bool :=
  match KV.get s.values user with
  | some (Ty.user _ (some _)) => true
  | _ => false

def Store.verify_key (s : Store) (user : String) (key : Nat) : Bool :=
  match KV.get s.values user with
  | some (Ty.user _ (some k)) => k = key
  | _ => false

/-! Hash sub-API (`impl HashMapAble<String> for Store`).

`hadd`/`hupsert` in the source run, in this order:
  1. `self.values.try_reserve(1)?`            (outcome `r1`),
  2. `self.values.entry(map_key).or_insert(Type::HashMap(HashMap::new()))`,
  3. if the entry is a `HashMap`: `map.try_reserve(1)?` (outcome `r2`) then
     `map.insert(key, value)`;
     if the entry is any other variant the `if let` falls through and the
     function returns `Ok(())` without touching the value.
Step 2 runs before step 3, so when the key was absent and `r2` fails, the
freshly inserted empty hash map stays in the store. -/

def Store.hadd (s : Store) (r1 r2 : Bool) (mapKey key value : String) : Bool × Store :=
  if !r1 then (false, s)
  else
    match KV.get s.values mapKey with
    | some (Ty.hashMap m) =>
        if r2 then
          (true, { s with values := KV.insert s.values mapKey (Ty.hashMap (KV.insert m key value)) })
        else (false, s)
    | some _ => (true, s)
    | none =>
        if r2 then
          (true, { s with values := KV.insert s.values mapKey (Ty.hashMap (KV.insert [] key value)) })
        else (false, { s with values := KV.insert s.values mapKey (Ty.hashMap []) })

/-- `Store::hupsert` has the same body as `Store::hadd` in the source. -/
def Store.hupsert (s : Store) (r1 r2 : Bool) (mapKey key value : String) : Bool × Store :=
  if !r1 then (false, s)
  else
    match KV.get s.values mapKey with
    | some (Ty.hashMap m) =>
        if r2 then
          (true, { s with values := KV.insert s.values mapKey (Ty.hashMap (KV.insert m key value)) })
        else (false, s)
    | some _ => (true, s)
    | none =>
        if r2 then
          (true, { s with values := KV.insert s.values mapKey (Ty.hashMap (KV.insert [] key value)) })
        else (false, { s with values := KV.insert s.values mapKey (Ty.hashMap []) })

/-- Errors surfaced by `Store::hincrby` (`enum ErrorType` in the source). -/
inductive HincrErr : Type
  | reserve
  | parseInt
deriving DecidableEq, Repr

/-- Rust `str::parse::<i64>`: optional sign, one or more ASCII digits, value
within the i64 range. -/
def parseI64 (s : String) : Option Int :=
  let cs := s.data
  let signed : Int × List Char :=
    match cs with
    | '-' :: rest => (-1, rest)
    | '+' :: rest => (1, rest)
    | _ => (1, cs)
  if signed.2.isEmpty then none
  else if signed.2.all (fun c => c.isDigit) then
    let n : Nat := signed.2.foldl (fun acc c => acc * 10 + (c.toNat - 48)) 0
    let v : Int := signed.1 * n
    if -(2 ^ 63) ≤ v ∧ v < 2 ^ 63 then some v else none
  else none

/-- `i64::checked_add(value).unwrap_or(0)`: the sum, or 0 on i64 overflow. -/
def i64CheckedAddOr0 (a b : Int) : Int :=
  let sum := a + b
  if -(2 ^ 63) ≤ sum ∧ sum < 2 ^ 63 then sum else 0

/-- `Store::hincrby`.  Result `none` is the `unreachable!` panic the source
hits when the key is bound to a non-HashMap variant: `entry().or_insert`
returns the existing value, the `if let Type::HashMap` match fails, and the
`else` branch executes `unreachable!`. -/
def Store.hincrby (s : Store) (r1 r2 : Bool) (mapKey key : String) (value : Int) :
    Option (Except HincrErr Int × Store) :=
  if !r1 then some (Except.error HincrErr.reserve, s)
  else
    match KV.get s.values mapKey with
    | some (Ty.hashMap m) =>
        if !r2 then some (Except.error HincrErr.reserve, s)
        else
          match KV.get m key with
          | some v =>
              match parseI64 v with
              | none => some (Except.error HincrErr.parseInt, s)
              | some n =>
                  let newValue := i64CheckedAddOr0 n value
                  some (Except.ok newValue,
                    { s with values :=
                        KV.insert s.values mapKey (Ty.hashMap (KV.insert m key (toString newValue))) })
          | none =>
              some (Except.ok value,
                { s with values :=
                    KV.insert s.values mapKey (Ty.hashMap (KV.insert m key (toString value))) })
    | some _ => none
    | none =>
        if !r2 then
          some (Except.error HincrErr.reserve,
            { s with values := KV.insert s.values mapKey (Ty.hashMap []) })
        else
          some (Except.ok value,
            { s with values := KV.insert s.values mapKey (Ty.hashMap (KV.insert [] key (toString value))) })

/-! List sub-API (`impl ListAble for Store`). -/

/-- `Vec::remove(i)`: panics (`none`) when `i` is out of range. -/
def listRemoveAt (l : List String) (i : Nat) : Option (List String) :=
  if i < l.length then some (l.take i ++ l.drop (i + 1)) else none

/-- `eq_ignore_ascii_case` on strings (compared through their character
lists). -/
def eqIgnoreAsciiCase (a b : String) : Bool :=
  a.data.map Char.toLower == b.data.map Char.toLower

/-- `Store::lmove`.  The source removes the source entry from the map first
(`self.values.remove(&src_key)`); a non-List entry is thereby dropped.  It then
looks the destination up in the map without the source entry, moves one
element if the destination is a List, and reinserts the (possibly shortened)
source list.  The returned element is `dest_list.last()` after the move.
Result `none` is a panic: `remove(0)`/`pop().unwrap()` on an empty source
list. -/
def Store.lmove (s : Store) (srcKey destKey leftRight rightLeft : String) :
    Option (Option String × Store) :=
  if !(eqIgnoreAsciiCase leftRight "right") && !(eqIgnoreAsciiCase leftRight "left") then
    some (none, s)
  else if !(eqIgnoreAsciiCase rightLeft "right") && !(eqIgnoreAsciiCase rightLeft "left") then
    some (none, s)
  else
    let rem := KV.removeGet s.values srcKey
    match rem.1 with
    | some (Ty.list srcList) =>
        match KV.get rem.2 destKey with
        | some (Ty.list destList) =>
            let moved : Option (String × List String) :=
              if eqIgnoreAsciiCase leftRight "left" then
                match srcList with
                | [] => none
                | f :: rest => some (f, rest)
              else
                match srcList.getLast? with
                | none => none
                | some b => some (b, srcList.dropLast)
            match moved with
            | none => none
            | some (x, srcRemaining) =>
                let destList2 :=
                  if eqIgnoreAsciiCase rightLeft "right" then destList ++ [x]
                  else x :: destList
                let withDest := KV.insert rem.2 destKey (Ty.list destList2)
                let newValues := KV.insert withDest srcKey (Ty.list srcRemaining)
                some (destList2.getLast?, { s with values := newValues })
        | _ =>
            some (none, { s with values := KV.insert rem.2 srcKey (Ty.list srcList) })
    | some _ => some (none, { s with values := rem.2 })
    | none => some (none, { s with values := rem.2 })

/-- The scan loop of `Store::lpos`.  `current_rank` moves by one on every
element equal to `value`; an index is recorded only while `current_rank`
equals the requested rank.  `comparisons` counts examined elements against
`max_len` (0 = unlimited). -/
def lposLoop (value : String) (rank : Int) (count maxLen : Nat) :
    List (Nat × String) → Int → Nat → List Nat → List Nat
  | [], _, _, found => found
  | (index, item) :: rest, currentRank, comparisons, found =>
      if maxLen > 0 && comparisons ≥ maxLen then found
      else
        if item = value then
          if currentRank = rank then
            if (found ++ [index]).length = count then found ++ [index]
            else
              lposLoop value rank count maxLen rest
                (currentRank + (if rank > 0 then 1 else -1)) (comparisons + 1)
                (found ++ [index])
          else
            lposLoop value rank count maxLen rest
              (currentRank + (if rank > 0 then 1 else -1)) (comparisons + 1) found
        else
          lposLoop value rank count maxLen rest currentRank (comparisons + 1) found

/-- `Store::lpos`.  `r` is the outcome of `found.try_reserve_exact(len)`;
`Except.error` is the reserve failure.  Defaults: rank 1, count 1, max_len 0.
An empty match list is reported as `none`. -/
def Store.lpos (s : Store) (r : Bool) (listKey value : String)
    (rank : Option Int) (count : Option Nat) (maxLen : Option Nat) :
    Except Unit (Option (List Nat)) :=
  match KV.get s.values listKey with
  | some (Ty.list l) =>
      let rank := rank.getD 1
      let count := count.getD 1
      let maxLen := maxLen.getD 0
      if !r then Except.error ()
      else
        let pairs := if rank > 0 then l.enum else l.enum.reverse
        let found := lposLoop value rank count maxLen pairs
          (if rank > 0 then 1 else -1) 0 []
        if found.isEmpty then Except.ok none else Except.ok (some found)
  | _ => Except.ok none

/-- The index of the first element equal to `v`, used to characterise what
`Store::lpos` actually returns for rank 1. -/
def firstMatch (v : String) : List String → Option Nat
  | [] => none
  | x :: rest => if x = v then some 0 else (firstMatch v rest).map (fun i => i + 1)

/-- `Store::lpush`: reserve a top-level slot (outcome `r1`), `or_insert` an
empty list, reserve in the list (outcome `r2`, skipped for a non-List entry),
then extend at the back.  As with `hadd`, a failing `r2` on an absent key
leaves the freshly inserted empty list behind. -/
def Store.lpush (s : Store) (r1 r2 : Bool) (listKey : String) (values : List String) :
    Bool × Store :=
  if !r1 then (false, s)
  else
    match KV.get s.values listKey with
    | some (Ty.list l) =>
        if r2 then (true, { s with values := KV.insert s.values listKey (Ty.list (l ++ values)) })
        else (false, s)
    | some _ => (true, s)
    | none =>
        if r2 then (true, { s with values := KV.insert s.values listKey (Ty.list values) })
        else (false, { s with values := KV.insert s.values listKey (Ty.list []) })

/-- `Store::rpush` has the same body as `Store::lpush` in the source. -/
def Store.rpush (s : Store) (r1 r2 : Bool) (listKey : String) (values : List String) :
    Bool × Store :=
  if !r1 then (false, s)
  else
    match KV.get s.values listKey with
    | some (Ty.list l) =>
        if r2 then (true, { s with values := KV.insert s.values listKey (Ty.list (l ++ values)) })
        else (false, s)
    | some _ => (true, s)
    | none =>
        if r2 then (true, { s with values := KV.insert s.values listKey (Ty.list values) })
        else (false, { s with values := KV.insert s.values listKey (Ty.list []) })

/-- The removal loop of `Store::lrem`: walk the pre-collected match indices,
call `Vec::remove` on each (panic as `none` when the index is out of range of
the by-now-shortened list), and stop once `removed` reaches `target`
(`count.abs()`); with `target = 0` the check `removed == target` never fires,
so every index is processed. -/
def lremLoop (target : Nat) : List Nat → List String → Nat → Option (Nat × List String)
  | [], l, removed => some (removed, l)
  | i :: rest, l, removed =>
      match listRemoveAt l i with
      | none => none
      | some l2 =>
          if removed + 1 = target then some (removed + 1, l2)
          else lremLoop target rest l2 (removed + 1)

/-- `Store::lrem`: collect the indices of all elements equal to `value` in the
original list, then remove them one by one (in reverse order for a negative
count).  The indices are not adjusted after each removal. -/
def Store.lrem (s : Store) (listKey : String) (count : Int) (value : String) :
    Option (Nat × Store) :=
  match KV.get s.values listKey with
  | some (Ty.list l) =>
      let indices := (l.enum.filter (fun p => p.2 = value)).map (fun p => p.1)
      let ordered := if count < 0 then indices.reverse else indices
      match lremLoop count.natAbs ordered l 0 with
      | none => none
      | some (removed, l2) =>
          some (removed, { s with values := KV.insert s.values listKey (Ty.list l2) })
  | _ => some (0, s)

/-- `Store::lset`.  For a negative index the source computes
`index + len as isize` and rejects a negative result; for a non-negative index
it compares against `list.len() - 1` in unsigned arithmetic.  On an empty list
that subtraction underflows: in a debug build the subtraction itself panics, in
a release build it wraps to `usize::MAX`, the bound check passes, and the
subsequent `list[index]` indexes out of range — a panic either way, embedded
as `none`. -/
def Store.lset (s : Store) (listKey : String) (index : Int) (value : String) :
    Option (Bool × Store) :=
  match KV.get s.values listKey with
  | some (Ty.list l) =>
      if index < 0 then
        let i := index + l.length
        if i < 0 then some (false, s)
        else
          some (true, { s with values := KV.insert s.values listKey (Ty.list (l.set i.toNat value)) })
      else
        if l.length = 0 then none
        else if index.toNat > l.length - 1 then some (false, s)
        else
          some (true,
            { s with values := KV.insert s.values listKey (Ty.list (l.set index.toNat value)) })
  | _ => some (false, s)

/-! Framer (`src/common/src/connection.rs`).  Byte buffers are `List Nat`.
The brotli and age crates are external collaborators; they are modelled from
the spec as concrete inverse pairs below. -/

/-- The 11 ASCII bytes of `age-encrypt`, the magic the framer compares the
first 11 decompressed bytes against (the binary age header begins with this
text). -/
def ageMagic : List Nat := [97, 103, 101, 45, 101, 110, 99, 114, 121, 112, 116]

/-- Modelled from the spec: the age X25519 recipient corresponding to an
identity (the public half of the key pair).  Identities and recipients are
`Nat`; the correspondence is the identity map. -/
def recipientOf (identity : Nat) : Nat := identity

/-- Modelled from the spec: an age recipients-container is the magic header
followed by the recipient and the plaintext. -/
def ageEncrypt (recipient : Nat) (plain : List Nat) : List Nat :=
  ageMagic ++ recipient :: plain

/-- Modelled from the spec: decrypting an age container with an identity
succeeds exactly when the container is addressed to that identity's
recipient. -/
def ageDecrypt (identity : Nat) (buf : List Nat) : Option (List Nat) :=
  match buf.drop 11 with
  | r :: plain => if r = recipientOf identity then some plain else none
  | [] => none

/-- Modelled from the spec: brotli compression, as a concrete invertible
codec (payload prefixed with its length). -/
def brotliCompress (buf : List Nat) : List Nat := buf.length :: buf

/-- Modelled from the spec: brotli decompression, inverse of
`brotliCompress`; malformed input fails. -/
def brotliDecompress (buf : List Nat) : Option (List Nat) :=
  match buf with
  | n :: rest => if rest.length = n then some rest else none
  | [] => none

/-- Outcome of `Connection::decrypt`. `panicked` is the out-of-range slice
`&buf[..11]` on a buffer shorter than 11 bytes; `passthrough` is the
`Ok(None)` unencrypted case. -/
inductive DecryptResult : Type
  | panicked
  | invalidData
  | decrypted (plain : List Nat)
  | passthrough
deriving DecidableEq, Repr

/-- `Connection::decrypt`: slice the first 11 bytes (panic when fewer),
compare with the age magic (a non-UTF8 or non-matching header means
unencrypted), then parse and decrypt the container. -/
def Connection.decrypt (identity : Nat) (buf : List Nat) : DecryptResult :=
  if buf.length < 11 then DecryptResult.panicked
  else if buf.take 11 = ageMagic then
    match ageDecrypt identity buf with
    | some plain => DecryptResult.decrypted plain
    | none => DecryptResult.invalidData
  else DecryptResult.passthrough

/-- Outcome of `Connection::read` on one complete frame payload. -/
inductive ReadResult : Type
  | panicked
  | invalidData
  | ok (data : List Nat) (encrypted : Bool)
deriving DecidableEq, Repr

/-- `Connection::read`, applied to the payload that follows the u32 length
prefix: decompress, then decrypt; a decrypted container is returned with
`encrypted = true`, a passthrough buffer with `encrypted = false`. -/
def Connection.read (identity : Nat) (payload : List Nat) : ReadResult :=
  match brotliDecompress payload with
  | none => ReadResult.invalidData
  | some dec =>
      match Connection.decrypt identity dec with
      | DecryptResult.panicked => ReadResult.panicked
      | DecryptResult.invalidData => ReadResult.invalidData
      | DecryptResult.decrypted plain => ReadResult.ok plain true
      | DecryptResult.passthrough => ReadResult.ok dec false

/-- `Connection::write`: age-encrypt to the bound peer key if there is one,
then compress.  The result is the frame payload (the length prefix is the
payload's length by construction of the wire format). -/
def Connection.write (pubKey : Option Nat) (buf : List Nat) : List Nat :=
  let maybeEncrypted :=
    match pubKey with
    | some k => ageEncrypt k buf
    | none => buf
  brotliCompress maybeEncrypted

/-! LOGIN handler (`struct LoginCommand` in `src/src/commands/connection.rs`). -/

/-- The per-connection state the handlers act on (`Connection` in
`src/common/src/connection.rs`): the logged-in user and the bound peer
public key. -/
structure Conn where
  user : Option String
  pubKey : Option Nat
deriving DecidableEq, Repr

/-- The `LoginCommand` handler's fields.  The source documents `login` as
"when the login succeeds the user is stored here to be used in the post_exec
to update the connection". -/
structure LoginState where
  encrypted : Bool
  alreadyLoggedIn : Bool
  recipient : Option Nat
  login : Option String
deriving DecidableEq, Repr

/-- `LoginCommand::default()`. -/
def LoginState.init : LoginState :=
  { encrypted := false, alreadyLoggedIn := false, recipient := none, login := none }

/-- Modelled from the spec: the SHA-512 hex digest of the password, as an
abstract injective stand-in (the handler only compares digests for
equality). -/
def sha512hex (s : String) : String := "sha512-" ++ s

/-- What `LoginCommand::execute` can produce: a refusal (`None`, the worker
closes the connection), a response, or a panic (`self.recipient.as_ref()
.unwrap()` when no peer key is bound although the user has a stored key). -/
inductive ExecOutcome : Type
  | panicked
  | refused
  | response (content : Option String) (success : Bool) (inReplyTo : Option Nat)
deriving DecidableEq, Repr

/-- `LoginCommand::pre_exec`: records whether the frame was encrypted, whether
a user is already bound, and the connection's peer key; always lets the
command proceed. -/
def LoginState.pre_exec (st : LoginState) (conn : Conn) (encrypted : Bool) :
    LoginState × Bool :=
  ({ st with
      encrypted := encrypted
      alreadyLoggedIn := conn.user.isSome
      recipient := conn.pubKey }, true)

/-- `LoginCommand::execute` for a decoded `LOGIN{user, password}` payload:
refuse on an unencrypted frame or an already-bound user; hash the password
and compare with the stored hash; when the user has a stored public key it
must equal the bound peer key.  The handler's own state is returned
unchanged: in particular no assignment to `login` appears anywhere in the
source body. -/
def LoginState.execute (st : LoginState) (s : Store) (user password : String)
    (msgId : Nat) : LoginState × ExecOutcome :=
  if !st.encrypted then (st, ExecOutcome.refused)
  else if st.alreadyLoggedIn then (st, ExecOutcome.refused)
  else
    let hashed := sha512hex password
    if s.user_is_valid user hashed then
      if s.user_has_key user then
        match st.recipient with
        | none => (st, ExecOutcome.panicked)
        | some rcp =>
            if !(s.verify_key user rcp) then (st, ExecOutcome.refused)
            else (st, ExecOutcome.response none true (some msgId))
      else (st, ExecOutcome.response none true (some msgId))
    else (st, ExecOutcome.response none false (some msgId))

/-- `LoginCommand::post_exec`: reset the handler state and, if `login` holds a
captured user name, bind it to the connection. -/
def LoginState.post_exec (st : LoginState) (conn : Conn) : LoginState × Conn :=
  let conn2 :=
    match st.login with
    | some u => { conn with user := some u }
    | none => conn
  (LoginState.init, conn2)

/-! Worker loop ACL check (`src/src/main.rs`, `worker_loop`). -/

/-- The worker-side connection record in `src/src/main.rs`: a freshly
generated uuid and the optional logged-in user. -/
structure WorkerConn where
  id : Nat
  user : Option String
deriving DecidableEq, Repr

/-- `Uuid::to_string`: the textual form of the connection uuid, modelled as an
injective rendering.  It is a hyphenated hex string on the wire; what matters
here is only that it is derived from the uuid, not from the user name. -/
def uuidToString (id : Nat) : String := "uuid-" ++ toString id

/-- The worker's authorization test before dispatch
(`store.acl_is_allowed(&connection.id.to_string(), cmd.to_id())` at
`src/src/main.rs:182`): the subject passed to the ACL is the connection's
uuid rendered as a string. -/
def workerAclAllows (s : Store) (c : WorkerConn) (commandId : Nat) : Bool :=
  s.acl_is_allowed (uuidToString c.id) commandId

/-! Helper lemmas about the association-list operations. -/

theorem KV.get_of_not_mem {α : Type} (l : List (String × α)) (k : String)
    (h : k ∉ l.map Prod.fst) : KV.get l k = none := by
  induction l with
  | nil => rfl
  | cons p rest ih =>
      obtain ⟨k2, v⟩ := p
      simp only [List.map_cons, List.mem_cons] at h
      push_neg at h
      simp only [KV.get]
      rw [if_neg (fun he => h.1 he.symm)]
      exact ih h.2

theorem KV.removeGet_fst {α : Type} (l : List (String × α)) (k : String) :
    (KV.removeGet l k).1 = KV.get l k := by
  induction l with
  | nil => rfl
  | cons p rest ih =>
      obtain ⟨k2, v⟩ := p
      simp only [KV.removeGet, KV.get]
      by_cases hk : k2 = k
      · rw [if_pos hk, if_pos hk]
      · rw [if_neg hk, if_neg hk]
        exact ih

theorem KV.get_removeGet_self {α : Type} (l : List (String × α)) (k : String)
    (h : (l.map Prod.fst).Nodup) : KV.get (KV.removeGet l k).2 k = none := by
  induction l with
  | nil => rfl
  | cons p rest ih =>
      obtain ⟨k2, v⟩ := p
      simp only [List.map_cons, List.nodup_cons] at h
      simp only [KV.removeGet]
      by_cases hk : k2 = k
      · rw [if_pos hk]
        subst hk
        exact KV.get_of_not_mem rest k2 h.1
      · rw [if_neg hk]
        simp only [KV.get]
        rw [if_neg hk]
        exact ih h.2

theorem KV.get_insert_self {α : Type} (l : List (String × α)) (k : String) (v : α) :
    KV.get (KV.insert l k v) k = some v := by
  induction l with
  | nil => simp [KV.insert, KV.get]
  | cons p rest ih =>
      obtain ⟨k2, v2⟩ := p
      simp only [KV.insert]
      by_cases hk : k2 = k
      · rw [if_pos hk]
        simp [KV.get]
      · rw [if_neg hk]
        simp only [KV.get]
        rw [if_neg hk]
        exact ih

/-! Helper lemmas about the framer model. -/

theorem brotli_roundtrip (b : List Nat) : brotliDecompress (brotliCompress b) = some b := by
  simp [brotliCompress, brotliDecompress]

theorem decrypt_ageEncrypt (identity : Nat) (b : List Nat) :
    Connection.decrypt identity (ageEncrypt (recipientOf identity) b) =
      DecryptResult.decrypted b := by
  have hm : ageMagic.length = 11 := rfl
  have hlen : ¬ ((ageEncrypt (recipientOf identity) b).length < 11) := by
    simp [ageEncrypt, ageMagic]
  have htake : (ageEncrypt (recipientOf identity) b).take 11 = ageMagic := by
    show (ageMagic ++ recipientOf identity :: b).take 11 = ageMagic
    exact List.take_left' hm
  have hdrop : (ageEncrypt (recipientOf identity) b).drop 11 = recipientOf identity :: b := by
    show (ageMagic ++ recipientOf identity :: b).drop 11 = recipientOf identity :: b
    exact List.drop_left' hm
  simp only [Connection.decrypt]
  rw [if_neg hlen, if_pos htake]
  simp [ageDecrypt, hdrop]

theorem decrypt_passthrough (identity : Nat) (b : List Nat)
    (h1 : 11 ≤ b.length) (h2 : b.take 11 ≠ ageMagic) :
    Connection.decrypt identity b = DecryptResult.passthrough := by
  simp only [Connection.decrypt]
  rw [if_neg (by omega), if_neg h2]

/-! Claim theorems. -/

/-- C1.  The claim is refuted by the code: on a successful LOGIN (correct
password, user without a stored public key, encrypted frame, anonymous
connection with a bound peer key) `execute` produces a `Success` response,
but `LoginCommand::execute` never assigns the documented `login` field, so
`post_exec` leaves the connection's `user` field `None` — the connection
never transitions to Authenticated. -/
theorem login_success_does_not_bind_user :
    (LoginState.execute (LoginState.pre_exec LoginState.init ⟨none, some 9⟩ true).1
        ⟨[], [("alice", Ty.user (sha512hex "pw") none)]⟩ "alice" "pw" 7).2 =
      ExecOutcome.response none true (some 7) ∧
    (LoginState.post_exec
        (LoginState.execute (LoginState.pre_exec LoginState.init ⟨none, some 9⟩ true).1
          ⟨[], [("alice", Ty.user (sha512hex "pw") none)]⟩ "alice" "pw" 7).1
        ⟨none, some 9⟩).2.user = none := by
  constructor
  · rfl
  · rfl

/-- C2.  The claim is refuted by the code: `hadd` (and `lpush`, `rpush`,
`hupsert`, `hincrby`) runs `entry(key).or_insert(empty container)` before the
inner `try_reserve`; when the key was absent, the outer reservation succeeded
and the inner one fails, the operation returns the reserve error but a newly
created empty hash map (resp. empty list) remains at the target key — the
store is not equal to its state before the call. -/
theorem reserve_failure_leaves_empty_container :
    Store.hadd ⟨[], []⟩ true false "m" "f" "v" =
      (false, ⟨[], [("m", Ty.hashMap [])]⟩) ∧
    Store.lpush ⟨[], []⟩ true false "k" ["x"] =
      (false, ⟨[], [("k", Ty.list [])]⟩) ∧
    (⟨[], [("m", Ty.hashMap [])]⟩ : Store) ≠ ⟨[], []⟩ := by
  refine ⟨rfl, rfl, ?_⟩
  decide

/-- C3.  The claim is refuted by the code: the worker's ACL check at
`src/src/main.rs:182` passes `connection.id.to_string()` — the connection's
uuid — as the subject, not the logged-in user name.  With user `alice` logged
in and `SET` in alice's ACL set, the worker still answers `NotAllowed`,
because the uuid subject has an empty ACL set. -/
theorem worker_acl_check_uses_connection_id :
    workerAclAllows ⟨[("alice", [CommandId.set])], []⟩ ⟨42, some "alice"⟩ CommandId.set = false ∧
    Store.acl_is_allowed ⟨[("alice", [CommandId.set])], []⟩ "alice" CommandId.set = true ∧
    (⟨42, some "alice"⟩ : WorkerConn).user.getD "" = "alice" := by
  refine ⟨?_, ?_, rfl⟩ <;> decide

/-- C4.  The claim is refuted by the code: on a key bound to the String
variant, `hadd` and `hupsert` return `Ok` (reported upstream as `Success`)
while writing nothing — there is no `TypeError` in the store's vocabulary —
and `hincrby` reaches the `unreachable!` arm and panics, because
`entry().or_insert` hands back the existing String and the
`if let Type::HashMap` match fails. -/
theorem wrong_variant_hash_ops :
    Store.hadd ⟨[], [("k", Ty.str "x")]⟩ true true "k" "f" "v" =
      (true, ⟨[], [("k", Ty.str "x")]⟩) ∧
    Store.hupsert ⟨[], [("k", Ty.str "x")]⟩ true true "k" "f" "v" =
      (true, ⟨[], [("k", Ty.str "x")]⟩) ∧
    Store.hincrby ⟨[], [("k", Ty.str "x")]⟩ true true "k" "f" 1 = none := by
  exact ⟨rfl, rfl, rfl⟩

/-- C5 counterexample.  The round-trip claim fails as stated "for every byte
vector": with no bound peer key and `B = []`, the decompressed payload is
shorter than 11 bytes, so the read path panics on the `&buf[..11]` magic
slice instead of yielding `([], encrypted=false)`. -/
theorem framer_roundtrip_short_vector :
    Connection.read 0 (Connection.write none []) = ReadResult.panicked ∧
    Connection.read 0 (Connection.write none []) ≠ ReadResult.ok [] false := by
  refine ⟨rfl, ?_⟩
  decide

/-- C6 counterexample.  `LMOVE k k "right" "left"` on `[a,b,c]` does not
rotate: the source removes the entry at `k` before looking the destination
up, the destination lookup therefore misses, the unmodified source list is
reinserted, and `None` is returned. -/
theorem lmove_same_key_no_rotation :
    Store.lmove ⟨[], [("k", Ty.list ["a", "b", "c"])]⟩ "k" "k" "right" "left" =
      some (none, ⟨[], [("k", Ty.list ["a", "b", "c"])]⟩) ∧
    Store.lmove ⟨[], [("k", Ty.list ["a", "b", "c"])]⟩ "k" "k" "right" "left" ≠
      some (some "c", ⟨[], [("k", Ty.list ["c", "a", "b"])]⟩) := by
  refine ⟨rfl, ?_⟩
  decide

/-- C7.  The claim is refuted by the code: `lrem` collects match indices
against the original list and then removes them without adjusting for the
shift caused by earlier removals.  On the list `[v, v, a]` with count 0 it
removes index 0 (a match) and then index 1 of the shortened list — the
non-matching `a` — returning 2 and leaving `[v]`; on `[v, a, v]` with count 0
the second stale index (2) is out of range of the shortened list and
`Vec::remove` panics. -/
theorem lrem_count_zero_wrong_removal :
    Store.lrem ⟨[], [("k", Ty.list ["v", "v", "a"])]⟩ "k" 0 "v" =
      some (2, ⟨[], [("k", Ty.list ["v"])]⟩) ∧
    Store.lrem ⟨[], [("k", Ty.list ["v", "a", "v"])]⟩ "k" 0 "v" = none := by
  exact ⟨rfl, rfl⟩

/-- C8 counterexample.  On the list `[v, v]`, `LPOS` with rank 1 and count 2
returns only `[0]`: after the first hit `current_rank` advances past the
requested rank, so no further index is ever collected — not `[0, 1]` as the
claim states. -/
theorem lpos_rank_one_single_hit :
    Store.lpos ⟨[], [("k", Ty.list ["v", "v"])]⟩ true "k" "v" (some 1) (some 2) none =
      Except.ok (some [0]) ∧
    Store.lpos ⟨[], [("k", Ty.list ["v", "v"])]⟩ true "k" "v" (some 1) (some 2) none ≠
      Except.ok (some [0, 1]) := by
  have h1 : Store.lpos ⟨[], [("k", Ty.list ["v", "v"])]⟩ true "k" "v" (some 1) (some 2) none =
      Except.ok (some [0]) := rfl
  refine ⟨h1, ?_⟩
  intro h2
  rw [h1] at h2
  simp at h2

/-- C9.  On every inbound frame whose decompressed payload is shorter than 11
bytes, `Connection::read` panics on the `&buf[..11]` slice taken for the
age-encrypt magic check instead of returning the payload unencrypted; with at
least 11 decompressed bytes the read path never panics. -/
theorem read_short_decompressed_panics (identity : Nat) (payload data : List Nat)
    (h : brotliDecompress payload = some data) :
    (data.length < 11 → Connection.read identity payload = ReadResult.panicked) ∧
    (11 ≤ data.length → Connection.read identity payload ≠ ReadResult.panicked) := by
  constructor
  · intro hlt
    simp only [Connection.read, h, Connection.decrypt]
    rw [if_pos hlt]
  · intro hge
    simp only [Connection.read, h, Connection.decrypt]
    rw [if_neg (by omega)]
    by_cases hm : data.take 11 = ageMagic
    · rw [if_pos hm]
      cases hd : ageDecrypt identity data <;> simp
    · rw [if_neg hm]
      simp

/-- C9 witness: the frame payload `[0]` decompresses to the empty buffer
(length 0 < 11) and the read path panics; a 11-byte all-zero buffer is at
least 11 bytes long and the read path does not panic. -/
theorem read_short_decompressed_panics_witness :
    Connection.read 0 [0] = ReadResult.panicked ∧
    Connection.read 0 [11, 0, 0, 0, 0, 0, 0, 0, 0, 0, 0, 0] ≠ ReadResult.panicked := by
  constructor
  · exact (read_short_decompressed_panics 0 [0] [] rfl).1 (by decide)
  · exact (read_short_decompressed_panics 0 [11, 0, 0, 0, 0, 0, 0, 0, 0, 0, 0, 0]
      [0, 0, 0, 0, 0, 0, 0, 0, 0, 0, 0] rfl).2 (by decide)

/-- C5 amended.  The round-trip holds with the panic of C9 excluded: with a
bound peer key equal to the reading identity's recipient,
`read(write(B)) = (B, encrypted=true)` for every byte vector `B`; with no
bound key it yields `(B, encrypted=false)` for every `B` of length at least
11 whose first 11 bytes are not the age-encrypt magic (shorter vectors panic
on the magic slice, and a vector starting with the magic would be mistaken
for an age container). -/
theorem framer_roundtrip_amended :
    (∀ (identity : Nat) (b : List Nat),
        Connection.read identity (Connection.write (some (recipientOf identity)) b) =
          ReadResult.ok b true) ∧
    (∀ (identity : Nat) (b : List Nat), 11 ≤ b.length → b.take 11 ≠ ageMagic →
        Connection.read identity (Connection.write none b) = ReadResult.ok b false) := by
  constructor
  · intro identity b
    simp only [Connection.write]
    simp only [Connection.read, brotli_roundtrip, decrypt_ageEncrypt]
  · intro identity b h1 h2
    simp only [Connection.write]
    simp only [Connection.read, brotli_roundtrip, decrypt_passthrough identity b h1 h2]

/-- C5 amended witness: the encrypted round-trip at identity 0 on `[1, 2]`,
and the unencrypted round-trip on eleven zero bytes. -/
theorem framer_roundtrip_amended_witness :
    Connection.read 0 (Connection.write (some (recipientOf 0)) [1, 2]) =
      ReadResult.ok [1, 2] true ∧
    Connection.read 0 (Connection.write none [0, 0, 0, 0, 0, 0, 0, 0, 0, 0, 0]) =
      ReadResult.ok [0, 0, 0, 0, 0, 0, 0, 0, 0, 0, 0] false := by
  constructor
  · exact framer_roundtrip_amended.1 0 [1, 2]
  · exact framer_roundtrip_amended.2 0 [0, 0, 0, 0, 0, 0, 0, 0, 0, 0, 0] (by decide) (by decide)

/-- C6 amended.  `LMOVE` with the same key as source and destination returns
`None` and leaves the stored list unchanged, whatever its contents: the
source entry is removed from the map before the destination lookup, which
therefore misses, and the unmodified source list is reinserted.  (The store's
keys are distinct, as for the Rust `HashMap`.) -/
theorem lmove_same_key_amended (s : Store) (k : String) (l : List String)
    (hnd : (s.values.map Prod.fst).Nodup)
    (h : KV.get s.values k = some (Ty.list l)) :
    ∃ s2 : Store, Store.lmove s k k "right" "left" = some (none, s2) ∧
      KV.get s2.values k = some (Ty.list l) := by
  have h1 : (KV.removeGet s.values k).1 = some (Ty.list l) := by
    rw [KV.removeGet_fst]; exact h
  have h2 : KV.get (KV.removeGet s.values k).2 k = none :=
    KV.get_removeGet_self s.values k hnd
  refine ⟨{ s with values := KV.insert (KV.removeGet s.values k).2 k (Ty.list l) }, ?_,
    KV.get_insert_self (KV.removeGet s.values k).2 k (Ty.list l)⟩
  simp only [Store.lmove]
  rw [if_neg (by decide), if_neg (by decide)]
  simp only [h1, h2]

/-- C6 amended witness: on the store holding `[a, b, c]` at `k`, the same-key
move returns `None` and `k` still holds `[a, b, c]`. -/
theorem lmove_same_key_amended_witness :
    ∃ s2 : Store,
      Store.lmove ⟨[], [("k", Ty.list ["a", "b", "c"])]⟩ "k" "k" "right" "left" =
        some (none, s2) ∧
      KV.get s2.values "k" = some (Ty.list ["a", "b", "c"]) :=
  lmove_same_key_amended ⟨[], [("k", Ty.list ["a", "b", "c"])]⟩ "k" ["a", "b", "c"]
    (by decide) (by decide)

/-- C10.  `lset` on a key holding a list: with a non-negative index and an
empty list the bound check `list.len() - 1` underflows in unsigned
arithmetic and the call panics (debug: on the subtraction; release: the
wrapped bound admits the index and `list[index]` is out of range); with a
non-empty list or a negative index the call is total, returning `false` for
out-of-range indices. -/
theorem lset_total_iff_nonempty_or_negative (s : Store) (k v : String) (idx : Int)
    (l : List String) (h : KV.get s.values k = some (Ty.list l)) :
    (l = [] → 0 ≤ idx → Store.lset s k idx v = none) ∧
    ((l ≠ [] ∨ idx < 0) → (Store.lset s k idx v).isSome = true) := by
  constructor
  · intro he hge
    subst he
    simp only [Store.lset, h]
    rw [if_neg (by omega)]
    rfl
  · intro hor
    simp only [Store.lset, h]
    by_cases hneg : idx < 0
    · rw [if_pos hneg]
      split <;> rfl
    · have hne : l ≠ [] := hor.resolve_right hneg
      rw [if_neg hneg]
      rw [if_neg (by intro h0; exact hne (List.length_eq_zero.mp h0))]
      split <;> rfl

/-- C10 witness: on an empty list at `k`, `lset k 0 v` panics; on the
singleton list `[a]`, `lset k 0 v` is total. -/
theorem lset_total_iff_nonempty_or_negative_witness :
    Store.lset ⟨[], [("k", Ty.list [])]⟩ "k" 0 "v" = none ∧
    (Store.lset ⟨[], [("k", Ty.list ["a"])]⟩ "k" 0 "v").isSome = true := by
  constructor
  · exact (lset_total_iff_nonempty_or_negative ⟨[], [("k", Ty.list [])]⟩ "k" "v" 0 []
      (by decide)).1 rfl (by decide)
  · exact (lset_total_iff_nonempty_or_negative ⟨[], [("k", Ty.list ["a"])]⟩ "k" "v" 0 ["a"]
      (by decide)).2 (Or.inl (by decide))

/-- Once `current_rank` has moved past rank 1, the `lpos` scan loop (with
unlimited `max_len`) never records another index: `current_rank` only grows
on positive ranks, so the equality with the requested rank can never hold
again. -/
theorem lposLoop_past_rank_one (v : String) (c : Nat) (pairs : List (Nat × String)) :
    ∀ (cr : Int) (comps : Nat) (acc : List Nat), 2 ≤ cr →
      lposLoop v 1 c 0 pairs cr comps acc = acc := by
  induction pairs with
  | nil => intro cr comps acc hcr; rfl
  | cons p rest ih =>
      intro cr comps acc hcr
      obtain ⟨index, item⟩ := p
      simp only [lposLoop]
      rw [if_neg (by simp)]
      by_cases hi : item = v
      · rw [if_pos hi, if_neg (by omega)]
        rw [show (if (1 : Int) > 0 then (1 : Int) else -1) = 1 from rfl]
        exact ih (cr + 1) (comps + 1) acc (by omega)
      · rw [if_neg hi]
        exact ih cr (comps + 1) acc hcr

/-- The `lpos` scan loop at rank 1 with unlimited `max_len` and an empty
accumulator collects exactly the index of the first element equal to the
needle, whatever the requested count. -/
theorem lposLoop_rank_one (v : String) (c : Nat) (l : List String) :
    ∀ (n comps : Nat),
      lposLoop v 1 c 0 (List.enumFrom n l) 1 comps [] =
        (match firstMatch v l with
         | some i => [n + i]
         | none => []) := by
  induction l with
  | nil => intro n comps; rfl
  | cons x rest ih =>
      intro n comps
      rw [show List.enumFrom n (x :: rest) = (n, x) :: List.enumFrom (n + 1) rest from rfl]
      simp only [lposLoop, firstMatch]
      rw [if_neg (by simp)]
      by_cases hx : x = v
      · rw [if_pos hx]
        rw [if_true]
        rw [if_pos hx]
        simp only [List.nil_append]
        by_cases hc : [n].length = c
        · rw [if_pos hc]
          rfl
        · rw [if_neg hc]
          rw [show (1 : Int) + (if (1 : Int) > 0 then (1 : Int) else -1) = 2 from rfl]
          rw [lposLoop_past_rank_one v c (List.enumFrom (n + 1) rest) 2 (comps + 1) [n]
            (by omega)]
          rfl
      · rw [if_neg hx, if_neg hx]
        rw [ih (n + 1) (comps + 1)]
        cases hf : firstMatch v rest with
        | none => rfl
        | some i =>
            show [n + 1 + i] = [n + (i + 1)]
            rw [Nat.add_assoc, Nat.add_comm 1 i]

/-- C8 amended.  `LPOS` with positive rank collects only the index of the
element at exactly the requested rank, so at most one index is ever
returned, whatever the count: with rank 1 (and unlimited `max_len`) the
result is the index of the first element equal to `value`, or `None` when
there is none — not the first `count` matching indices as the claim
states. -/
theorem lpos_rank_one_amended (s : Store) (k v : String) (l : List String) (c : Nat)
    (h : KV.get s.values k = some (Ty.list l)) :
    Store.lpos s true k v (some 1) (some c) none =
      Except.ok ((firstMatch v l).map (fun i => [i])) := by
  simp only [Store.lpos, h, Option.getD]
  rw [show (l.enum : List (Nat × String)) = List.enumFrom 0 l from rfl]
  rw [show (if (1 : Int) > 0 then List.enumFrom 0 l else (List.enumFrom 0 l).reverse) =
      List.enumFrom 0 l from rfl]
  rw [show (if (1 : Int) > 0 then (1 : Int) else -1) = 1 from rfl]
  rw [lposLoop_rank_one v c l 0 0]
  cases hf : firstMatch v l with
  | none => rfl
  | some i => simp

/-- C8 amended witness: on the list `[a, v]`, `LPOS` for `v` with rank 1 and
count 1 returns `[1]`, the index of the first (and only) match. -/
theorem lpos_rank_one_amended_witness :
    Store.lpos ⟨[], [("k", Ty.list ["a", "v"])]⟩ true "k" "v" (some 1) (some 1) none =
      Except.ok (some [1]) := by
  have := lpos_rank_one_amended ⟨[], [("k", Ty.list ["a", "v"])]⟩ "k" "v" ["a", "v"] 1
    (by decide)
  simpa using this

end InMem
